import Mathlib

/-!
Verification of the `frog` terminal-UI runtime (package `core`) against its
natural-language specification.  Each Go function relevant to the claims is
shallowly embedded as an executable Lean definition, translated directly from
the source files (`src/core/cmd.go`, `src/core/input.go`, `src/core/renderer.go`,
`src/core/session.go`, and the style/color files).  Theorems about those
definitions settle the claims.
-/

set_option maxRecDepth 10000

namespace Frog

/-! ## Event types (from `src/core/msg.go` and the mouse/paste message file)

`Msg` in Go is `interface{}`; the runtime only ever produces the closed set of
message kinds below, so we model `Msg` as a sum.  A Go `nil` message is
modelled as `Option.none` at use sites (`Option Msg`). -/

inductive KeyType
  | keyUnknown | keyRune | keyEnter | keyBackspace | keyEsc | keyCtrlC
  | keyUp | keyDown | keyLeft | keyRight | keyTab | keySpace
  | keyDelete | keyHome | keyEnd | keyPgUp | keyPgDn | keyQ
  deriving DecidableEq, Repr

structure KeyMsg where
  type : KeyType
  rune : Option Char := none
  str : String := ""
  alt : Bool := false
  ctrl : Bool := false
  deriving DecidableEq, Repr

inductive MouseButton
  | mouseUnknown | mouseLeft | mouseMiddle | mouseRight
  | mouseWheelUp | mouseWheelDown
  deriving DecidableEq, Repr

inductive MouseAction
  | mousePress | mouseRelease | mouseDrag | mouseWheel
  deriving DecidableEq, Repr

structure MouseMsg where
  button : MouseButton
  action : MouseAction
  x : Nat
  y : Nat
  alt : Bool
  ctrl : Bool
  shift : Bool
  deriving DecidableEq, Repr

/-- `PasteMsg.Text` is a Go string, i.e. a raw byte sequence; we keep the bytes. -/
structure PasteMsg where
  text : List UInt8
  deriving DecidableEq, Repr

/-- Tick timestamps are opaque here (we never reason about wall-clock time). -/
structure TickMsg where
  atTime : Nat
  deriving DecidableEq, Repr

structure ResizeMsg where
  width : Int
  height : Int
  deriving DecidableEq, Repr

inductive Msg
  | key (k : KeyMsg)
  | mouse (m : MouseMsg)
  | paste (p : PasteMsg)
  | tick (t : TickMsg)
  | resize (r : ResizeMsg)
  | quit
  deriving DecidableEq, Repr

/-! ## Commands (from `src/core/cmd.go`, and the batch-combinator variant file)

A Go `Cmd` is `func() Msg`, and both the function value and the returned
message may be `nil`.  We model the function's observable behaviour as its
returned message (`Unit → Option Msg`, `none` = nil message) and a nil `Cmd`
as `Option.none`.  Invoking a nil function value panics in Go, so the result
of invoking a possibly-nil command is an `ExecR`. -/

def Cmd : Type := Option (Unit → Option Msg)

/-- Result of invoking a (possibly nil) Go `Cmd` value. -/
inductive ExecR
  | msg (m : Option Msg)
  | panicked
  deriving DecidableEq

/-- Calling a Go function value: a nil function panics, otherwise we get its
returned (possibly nil) message. -/
def callCmd : Cmd → ExecR
  | none => .panicked
  | some f => .msg (f ())

/-- `Batch` as implemented in `src/core/cmd.go`: empty input returns the nil
command, otherwise a closure whose body is `return cmds[0]()`. -/
def BatchCore (cmds : List Cmd) : Option (Unit → ExecR) :=
  match cmds with
  | [] => none
  | c :: _ => some (fun _ => callCmd c)

/-- The loop body of the documented `Batch` (the batch-combinator source
variant): skip nil commands, return the first non-nil message. -/
def batchRun : List Cmd → Option Msg
  | [] => none
  | none :: rest => batchRun rest
  | some f :: rest =>
    match f () with
    | some m => some m
    | none => batchRun rest

/-- `Batch` as implemented in the documented combinator variant
(`src/unnamed/part_010`): empty input returns the nil command, otherwise a
closure that runs the commands in order and yields the first non-nil
message. -/
def BatchDoc (cmds : List Cmd) : Option (Unit → ExecR) :=
  match cmds with
  | [] => none
  | _ :: _ => some (fun _ => .msg (batchRun cmds))

/-! ## Reader model (for `src/core/input.go`)

The decoder reads from a `bufio.Reader`.  We model the reader by the bytes
currently buffered (`buf`) plus a flag `eof` telling whether the underlying
stream is exhausted.  `input.go` uses two kinds of reads:

* reads guarded by a `r.Buffered() == 0` (or `r.Buffered() < n`) check, which
  never touch the underlying stream — these are modelled by matching on `buf`;
* unguarded `r.ReadByte()` calls, which on an empty buffer either return an
  error (underlying stream at EOF) or *wait* for the underlying stream to
  deliver more bytes.  The latter is modelled by the distinguished outcome
  `ROut.blocked`: the parse cannot finish from the buffered data alone. -/

structure RD where
  buf : List UInt8
  eof : Bool
  deriving DecidableEq, Repr

inductive ROut (α : Type)
  | ok (a : α) (rd : RD)
  | blocked
  deriving DecidableEq, Repr

/-- An unguarded `r.ReadByte()`: pops a buffered byte; on an empty buffer it
returns the error outcome (`ok none`, Go `b=0, err≠nil`) when the stream is at
EOF, and otherwise waits for more input (`blocked`). -/
def readByteR : RD → ROut (Option UInt8)
  | ⟨[], true⟩ => .ok none ⟨[], true⟩
  | ⟨[], false⟩ => .blocked
  | ⟨b :: rest, e⟩ => .ok (some b) ⟨rest, e⟩

/-- `input.peekSeq`: true iff at least `s.length` bytes are buffered and they
start with `s` (never blocks: checks `Buffered()` first). -/
def peekSeq (rd : RD) (s : List UInt8) : Bool :=
  decide (s.length ≤ rd.buf.length) && decide (rd.buf.take s.length = s)

/-- `input.peekByte`: true iff at least one byte is buffered and it is `b`. -/
def peekByte (rd : RD) (b : UInt8) : Bool :=
  match rd.buf with
  | [] => false
  | c :: _ => c == b

/-- `r.Discard n` for `n` already-buffered bytes. -/
def discard (rd : RD) (n : Nat) : RD := ⟨rd.buf.drop n, rd.eof⟩

/-- ASCII bytes of a Lean string literal (used for the fixed byte sequences
`"200~"`, `"[201~"` the decoder matches against). -/
def bytes (s : String) : List UInt8 := s.toList.map (fun c => UInt8.ofNat c.toNat)

/-- Go `string(bs)` for the byte sequences the decoder builds key strings
from: each byte becomes the code point of the same value (the bytes involved
are parameter bytes and single terminator bytes, which Go converts
codepoint-wise via `string(params)`/`string(b)` on ASCII data). -/
def asciiStr (bs : List UInt8) : String := String.mk (bs.map (fun b => Char.ofNat b.toNat))

/-! ## UTF-8 decoding (Go `unicode/utf8`, used by the Alt+key path) -/

/-- Size of the encoding a leading byte announces (0 for an invalid leading
byte, which Go's tables mark as size 1 / invalid). -/
def utf8Size (b0 : UInt8) : Nat :=
  if b0 < 0x80 then 1
  else if 0xC2 ≤ b0 && b0 ≤ 0xDF then 2
  else if 0xE0 ≤ b0 && b0 ≤ 0xEF then 3
  else if 0xF0 ≤ b0 && b0 ≤ 0xF4 then 4
  else 0

/-- Accepted range for the first continuation byte, given the leading byte
(Go's `acceptRanges` table). -/
def accept1 (b0 b1 : UInt8) : Bool :=
  if b0 == 0xE0 then 0xA0 ≤ b1 && b1 ≤ 0xBF
  else if b0 == 0xED then 0x80 ≤ b1 && b1 ≤ 0x9F
  else if b0 == 0xF0 then 0x90 ≤ b1 && b1 ≤ 0xBF
  else if b0 == 0xF4 then 0x80 ≤ b1 && b1 ≤ 0x8F
  else 0x80 ≤ b1 && b1 ≤ 0xBF

/-- Ordinary continuation byte range. -/
def isContB (b : UInt8) : Bool := 0x80 ≤ b && b ≤ 0xBF

/-- The Unicode replacement character, `utf8.RuneError`. -/
def runeError : Nat := 0xFFFD

/-- Go `utf8.DecodeRune`: code point and size; `(RuneError, 1)` on malformed
or incomplete input (and `(RuneError, 0)` on empty input). -/
def decodeRune (p : List UInt8) : Nat × Nat :=
  match p with
  | [] => (runeError, 0)
  | b0 :: rest =>
    if b0 < 0x80 then (b0.toNat, 1)
    else
      match utf8Size b0, rest with
      | 2, b1 :: _ =>
        if accept1 b0 b1 then
          (((b0.toNat &&& 0x1F) <<< 6) ||| (b1.toNat &&& 0x3F), 2)
        else (runeError, 1)
      | 3, b1 :: b2 :: _ =>
        if accept1 b0 b1 && isContB b2 then
          (((b0.toNat &&& 0x0F) <<< 12) ||| ((b1.toNat &&& 0x3F) <<< 6) ||| (b2.toNat &&& 0x3F), 3)
        else (runeError, 1)
      | 4, b1 :: b2 :: b3 :: _ =>
        if accept1 b0 b1 && isContB b2 && isContB b3 then
          (((b0.toNat &&& 0x07) <<< 18) ||| ((b1.toNat &&& 0x3F) <<< 12) |||
            ((b2.toNat &&& 0x3F) <<< 6) ||| (b3.toNat &&& 0x3F), 4)
        else (runeError, 1)
      | _, _ => (runeError, 1)

/-- Go `utf8.FullRune`: whether `p` begins with a full encoding (malformed
prefixes count as full, since decoding them cannot improve with more bytes). -/
def fullRune (p : List UInt8) : Bool :=
  match p with
  | [] => false
  | b0 :: rest =>
    let size := if utf8Size b0 == 0 then 1 else utf8Size b0
    if size ≤ p.length then true
    else
      match rest with
      | [] => false
      | b1 :: rest2 =>
        if !accept1 b0 b1 then true
        else
          match rest2 with
          | [] => false
          | b2 :: _ => !isContB b2

/-- Go `unicode.IsControl`: the Cc category, U+0000–U+001F and U+007F–U+009F. -/
def isControlRune (c : Nat) : Bool := c < 0x20 || (0x7F ≤ c && c ≤ 0x9F)

/-! ## The escape-sequence decoder (`src/core/input.go`) -/

/-- The bare-Escape fallback key `KeyMsg{Type: KeyEsc, String: "\x1b"}`. -/
def bareEsc : KeyMsg := { type := .keyEsc, str := "\x1b" }

/-- The `buf := []byte{nb}; for r.Buffered() > 0 && !utf8.FullRune(buf) { … }`
loop of the Alt+key path: keep consuming buffered bytes until a full rune.
Returns the accumulated bytes and the rest of the buffer. -/
def fillRune (acc : List UInt8) : List UInt8 → List UInt8 × List UInt8
  | [] => (acc, [])
  | b :: rest =>
    if fullRune acc then (acc, b :: rest)
    else fillRune (acc ++ [b]) rest

/-- A byte the CSI loop treats as a parameter byte: a decimal digit or `;`. -/
def isParamByte (b : UInt8) : Bool := (0x30 ≤ b && b ≤ 0x39) || b == 0x3B

/-- The parameter-accumulating loop of `input.readCSI`.  `params` holds the
digit/`;` bytes accumulated so far; `e` is the reader's `eof` flag (the loop
only ever does guarded reads, so it never consults the underlying stream). -/
def readCSIAux (params : List UInt8) (e : Bool) : List UInt8 → ROut Msg
  | [] => .ok (.key bareEsc) ⟨[], e⟩
  | b :: rest =>
    let rd' : RD := ⟨rest, e⟩
    if b == 0x41 then .ok (.key { type := .keyUp, str := "\x1b[A" }) rd'
    else if b == 0x42 then .ok (.key { type := .keyDown, str := "\x1b[B" }) rd'
    else if b == 0x43 then .ok (.key { type := .keyRight, str := "\x1b[C" }) rd'
    else if b == 0x44 then .ok (.key { type := .keyLeft, str := "\x1b[D" }) rd'
    else if b == 0x48 then .ok (.key { type := .keyHome, str := "\x1b[H" }) rd'
    else if b == 0x46 then .ok (.key { type := .keyEnd, str := "\x1b[F" }) rd'
    else if b == 0x7E then -- '~'
      if params = bytes "3" then .ok (.key { type := .keyDelete, str := "\x1b[3~" }) rd'
      else if params = bytes "5" then .ok (.key { type := .keyPgUp, str := "\x1b[5~" }) rd'
      else if params = bytes "6" then .ok (.key { type := .keyPgDn, str := "\x1b[6~" }) rd'
      else if params = bytes "2" then .ok (.key { type := .keyEsc, str := "\x1b[2~" }) rd'
      else .ok (.key { type := .keyEsc, str := "\x1b[" ++ asciiStr params ++ "~" }) rd'
    else if isParamByte b then readCSIAux (params ++ [b]) e rest
    else .ok (.key { type := .keyEsc, str := "\x1b[" ++ asciiStr params ++ asciiStr [b] }) rd'

/-- `input.readCSI`: parse a CSI sequence after `ESC [`. -/
def readCSI (rd : RD) : ROut Msg := readCSIAux [] rd.eof rd.buf

def isDigitB (b : UInt8) : Bool := 0x30 ≤ b && b ≤ 0x39

/-- Decimal value of a digit-byte sequence (what `strconv.Atoi` computes). -/
def natOfDigits (ds : List UInt8) : Nat :=
  ds.foldl (fun a b => 10 * a + (b.toNat - 0x30)) 0

/-- Go's largest `int` on 64-bit targets; `strconv.Atoi` errors beyond it. -/
def maxGoInt : Nat := 2 ^ 63 - 1

/-- The local `readNum` closure of `input.readMouseSGR`: consume buffered
decimal digits (stopping at the first non-digit, which is unread, or when the
buffer empties), then `strconv.Atoi`. Returns `none` when no digits were
consumed or the value overflows `int`. -/
def readNumM (rd : RD) : Option Nat × RD :=
  let ds := rd.buf.takeWhile isDigitB
  let rest := rd.buf.dropWhile isDigitB
  if ds.isEmpty then (none, ⟨rest, rd.eof⟩)
  else if natOfDigits ds ≤ maxGoInt then (some (natOfDigits ds), ⟨rest, rd.eof⟩)
  else (none, ⟨rest, rd.eof⟩)

/-- `input.readMouseSGR`: parse `b ; x ; y (M|m)` after `ESC [ <`.  The two
`;` separators and the final byte are read with *unguarded* `ReadByte` calls
(the Go code ignores their errors), so those three reads can block on an empty
buffer; every detected parse failure falls back to the bare Escape key. -/
def readMouseSGR (rd : RD) : ROut Msg :=
  match readNumM rd with
  | (none, rd1) => .ok (.key bareEsc) rd1
  | (some b, rd1) =>
    match readByteR rd1 with
    | .blocked => .blocked
    | .ok oc rd2 =>
      if oc ≠ some 0x3B then .ok (.key bareEsc) rd2
      else
        match readNumM rd2 with
        | (none, rd3) => .ok (.key bareEsc) rd3
        | (some x, rd3) =>
          match readByteR rd3 with
          | .blocked => .blocked
          | .ok oc2 rd4 =>
            if oc2 ≠ some 0x3B then .ok (.key bareEsc) rd4
            else
              match readNumM rd4 with
              | (none, rd5) => .ok (.key bareEsc) rd5
              | (some y, rd5) =>
                match readByteR rd5 with
                | .blocked => .blocked
                | .ok ofin rd6 =>
                  let fin := ofin.getD 0
                  let shift := b &&& 4 ≠ 0
                  let alt := b &&& 8 ≠ 0
                  let ctrl := b &&& 16 ≠ 0
                  if b &&& 64 ≠ 0 then
                    .ok (.mouse {
                      button := if b &&& 1 = 1 then .mouseWheelDown else .mouseWheelUp
                      action := .mouseWheel
                      x := x, y := y
                      alt := alt, ctrl := ctrl, shift := shift }) rd6
                  else
                    .ok (.mouse {
                      button :=
                        if b &&& 3 = 0 then .mouseLeft
                        else if b &&& 3 = 1 then .mouseMiddle
                        else if b &&& 3 = 2 then .mouseRight
                        else .mouseUnknown
                      action :=
                        if fin == 0x6D then .mouseRelease
                        else if b &&& 32 ≠ 0 then .mouseDrag
                        else .mousePress
                      x := x, y := y
                      alt := alt, ctrl := ctrl, shift := shift }) rd6

/-- `maxPaste = 1 << 20` (1 MiB). -/
def maxPaste : Nat := 1 <<< 20

/-- The accumulation loop of `input.readBracketedPaste`: read raw bytes until
the literal `ESC [201~` terminator (or read error), appending to the payload
only while it is below `maxPaste`; over-limit bytes are discarded but the
terminator is still recognized.  The loop's `ReadByte` is unguarded, so an
empty buffer means EOF-break (`e = true`) or waiting for input (`blocked`). -/
def readPasteAux (acc : List UInt8) (e : Bool) : List UInt8 → ROut Msg
  | [] => if e then .ok (.paste ⟨acc⟩) ⟨[], e⟩ else .blocked
  | b :: rest =>
    let rd1 : RD := ⟨rest, e⟩
    if maxPaste ≤ acc.length then
      if b == 27 && peekSeq rd1 (bytes "[201~") then .ok (.paste ⟨acc⟩) (discard rd1 5)
      else readPasteAux acc e rest
    else if b == 27 then
      if peekSeq rd1 (bytes "[201~") then .ok (.paste ⟨acc⟩) (discard rd1 5)
      else readPasteAux (acc ++ [b]) e rest
    else readPasteAux (acc ++ [b]) e rest

/-- `input.readBracketedPaste`, entered after `ESC [ 200 ~` was consumed. -/
def readBracketedPaste (rd : RD) : ROut Msg := readPasteAux [] rd.eof rd.buf

/-- `input.readEscape`: decode what follows a read `ESC` byte.  With nothing
buffered it yields the bare Escape key; `[` dispatches to bracketed paste
(`200~` prefix), SGR mouse (`<` prefix) or generic CSI; anything else is the
Alt+key path, falling back to bare Escape when no valid non-control character
decodes. -/
def readEscape (rd : RD) : ROut Msg :=
  match rd.buf with
  | [] => .ok (.key bareEsc) rd
  | nb :: rest =>
    let rd1 : RD := ⟨rest, rd.eof⟩
    if nb == 0x5B then -- '['
      if peekSeq rd1 (bytes "200~") then readBracketedPaste (discard rd1 4)
      else if peekByte rd1 0x3C then readMouseSGR (discard rd1 1)
      else readCSI rd1
    else
      let fr := fillRune [nb] rest
      let rd2 : RD := ⟨fr.2, rd.eof⟩
      let ru := (decodeRune fr.1).1
      if ru ≠ runeError && !isControlRune ru then
        .ok (.key { type := .keyRune, rune := some (Char.ofNat ru),
                    str := String.mk [Char.ofNat ru], alt := true }) rd2
      else .ok (.key bareEsc) rd2

/-! ## Renderer (`src/core/renderer.go`)

Every `fmt.Fprint`/`Fprintf` the renderer performs emits one of a fixed set of
escape payloads; we record them as structured `Write` events (with `encodeWrite`
recovering the exact bytes written). -/

inductive Write
  | hideClearHome              -- "\x1b[?25l\x1b[2J\x1b[H"
  | home                       -- "\x1b[H"
  | text (s : String)          -- the view or a line, written verbatim
  | eraseToEndScreen           -- "\x1b[0J"
  | move (row col : Nat)       -- "\x1b[{row};{col}H"
  | eraseLine                  -- "\x1b[2K"
  | eraseToEOL                 -- "\x1b[0K"
  | showCursor                 -- "\x1b[?25h"
  deriving DecidableEq, Repr

/-- The exact terminal bytes a `Write` event stands for. -/
def encodeWrite : Write → String
  | .hideClearHome => "\x1b[?25l\x1b[2J\x1b[H"
  | .home => "\x1b[H"
  | .text s => s
  | .eraseToEndScreen => "\x1b[0J"
  | .move row col => "\x1b[" ++ toString row ++ ";" ++ toString col ++ "H"
  | .eraseLine => "\x1b[2K"
  | .eraseToEOL => "\x1b[0K"
  | .showCursor => "\x1b[?25h"

/-- Mutable fields of `ansiRenderer` (the mutex only serializes calls). -/
structure RState where
  last : String
  lines : List String
  cleared : Bool
  useDiff : Bool
  deriving DecidableEq, Repr

/-- `newANSIRenderer`: diff enabled, nothing painted. -/
def newANSIRenderer : RState := { last := "", lines := [], cleared := false, useDiff := true }

/-- `strings.ReplaceAll(s, "\r\n", "\n")` on the character list. -/
def replCRLF : List Char → List Char
  | [] => []
  | '\r' :: '\n' :: rest => '\n' :: replCRLF rest
  | c :: rest => c :: replCRLF rest

/-- `normalizeNewlines`: CRLF and bare CR become LF (fast path when no CR). -/
def normalizeNewlines (s : String) : String :=
  if !s.toList.contains '\r' then s
  else ⟨(replCRLF s.toList).map (fun c => if c = '\r' then '\n' else c)⟩

/-- `strings.Split(s, "\n")` on the character list (retains empty parts). -/
def splitNL : List Char → List (List Char)
  | [] => [[]]
  | '\n' :: rest => [] :: splitNL rest
  | c :: rest =>
    match splitNL rest with
    | l :: ls => (c :: l) :: ls
    | [] => [[c]]

/-- `splitKeep`: empty string maps to no lines, otherwise split on `\n`. -/
def splitKeep (s : String) : List String :=
  if s = "" then [] else (splitNL s.toList).map (fun l => ⟨l⟩)

/-- The row loop of `ansiRenderer.Render`'s diff branch: rows the new frame no
longer has get a cursor move plus a full-line erase; changed rows get a cursor
move, the new content, and an erase to end of line; unchanged rows nothing. -/
def diffWrites (old new : List String) : List Write :=
  (List.range (Nat.max old.length new.length)).flatMap (fun i =>
    if new.length ≤ i then [.move (i + 1) 1, .eraseLine]
    else if old.getD i "" ≠ new.getD i "" then
      [.move (i + 1) 1, .text (new.getD i ""), .eraseToEOL]
    else [])

/-- `ansiRenderer.clearLocked` / `Clear`: reset paint state. -/
def clearState (st : RState) : RState :=
  { st with cleared := true, last := "", lines := [] }

/-- `ansiRenderer.Clear`: emit hide-cursor + clear + home, drop frame state. -/
def rendClear (st : RState) : RState × List Write :=
  (clearState st, [.hideClearHome])

/-- `ansiRenderer.Render`: returns the new renderer state and the writes
performed, translated line by line from the Go method. -/
def rendRender (st : RState) (s : String) : RState × List Write :=
  let st1 := if !st.cleared then clearState st else st
  let w1 : List Write := if !st.cleared then [.hideClearHome] else []
  let view := normalizeNewlines s
  if view = st1.last then (st1, w1)
  else if !st1.useDiff || st1.lines.isEmpty then
    ({ st1 with last := view, lines := splitKeep view },
      w1 ++ [.home, .text view, .eraseToEndScreen])
  else
    let newLines := splitKeep view
    ({ st1 with last := view, lines := newLines }, w1 ++ diffWrites st1.lines newLines)

/-- `ansiRenderer.Close`: show the cursor. -/
def rendClose (st : RState) : RState × List Write := (st, [.showCursor])

/-! ## Session run loop (`src/core/session.go`)

The main loop's `select` draws, in scheduler-determined order, from the
cancellation context, the OS-signal channel and the message queue; we model an
interleaving as a list of `LoopItem`s.  A signal logs and enqueues `QuitMsg`
at the back of the message queue; a nil message is skipped; a real message is
passed to `Update`, the model replaced, the new view rendered, any returned
command dispatched, and a `QuitMsg` additionally breaks the loop. -/

inductive LoopItem
  | ctxDone
  | signal
  | message (m : Option Msg)
  deriving DecidableEq, Repr

inductive LoopEv
  | logSignal
  | updateCall (m : Msg)
  | renderCall (view : String)
  | dispatchCmd
  deriving DecidableEq, Repr

/-- Termination measure: a signal is consumed but enqueues one message. -/
def loopMeasure : List LoopItem → Nat
  | [] => 0
  | .signal :: rest => 2 + loopMeasure rest
  | _ :: rest => 1 + loopMeasure rest

@[simp] theorem loopMeasure_append (a b : List LoopItem) :
    loopMeasure (a ++ b) = loopMeasure a + loopMeasure b := by
  induction a with
  | nil => simp [loopMeasure]
  | cons x xs ih => cases x <;> simp [loopMeasure, ih] <;> omega

/-- One run of the main loop from model `m` over the queued items.  Returns
the final model, the trace of loop events, and the items never dequeued
(because the loop exited first).  `upd` returns the new model and whether a
command was returned; `vw` is `Model.View`. -/
def loopRun {σ : Type} (upd : σ → Msg → σ × Bool) (vw : σ → String) :
    σ → List LoopItem → σ × List LoopEv × List LoopItem
  | m, [] => (m, [], [])
  | m, .ctxDone :: rest => (m, [], rest)
  | m, .signal :: rest =>
    let r := loopRun upd vw m (rest ++ [.message (some .quit)])
    (r.1, .logSignal :: r.2.1, r.2.2)
  | m, .message none :: rest => loopRun upd vw m rest
  | m, .message (some msg) :: rest =>
    let m' := (upd m msg).1
    let evs : List LoopEv := [.updateCall msg, .renderCall (vw m')] ++
      (if (upd m msg).2 then [.dispatchCmd] else [])
    if msg = .quit then (m', evs, rest)
    else
      let r := loopRun upd vw m' rest
      (r.1, evs ++ r.2.1, r.2.2)
  termination_by _ items => loopMeasure items
  decreasing_by
    all_goals simp [loopMeasure, List.foldl_append]
    all_goals omega

/-! ## Terminal-state events of `Session.Run`

`Session.Run`'s interactive path manipulates process-wide terminal state: raw
mode (`input.raw` / the guarded `input.restore`), the renderer's cursor
visibility (`Clear` / `Close`), and the optional alt-screen / mouse / paste
toggles.  The main loop body touches none of these (its effects are the
`LoopEv`s above), so the terminal-state event trace of a whole run is
determined by the configuration and the way the run exits:

* `quitExit` / `cancelExit`: the loop ends via a dequeued `QuitMsg` resp. a
  cancelled context; the `stopOnce` block runs (cancel, `renderer.Close()`,
  `input.restore()`), then the deferred calls unwind in LIFO order
  (`signal.Stop`, paste off, mouse off, alt off, `input.restore()` again).
* `panicExit`: a panic inside the loop unwinds the defers first (LIFO), then
  the recovery handler runs the `stopOnce` block (cancel, `renderer.Close()`,
  `input.restore()`).
* `rawFail`: `input.raw()` failed; `Run` returns before any terminal state
  was changed (the restore defer is not yet armed, and `oldState` is nil).

`termRestore` stands for an actual `term.Restore(fd, oldState)` call made by
the guarded `input.restore` (the guard `oldState != nil` passes on every path
where raw mode was entered, and `oldState` is never cleared). -/

inductive TermEv
  | rawEnter | termRestore | rendererClose | rendererClear
  | altOn | altOff | mouseOn | mouseOff | pasteOn | pasteOff
  | sigStop | cancelCtx
  deriving DecidableEq, Repr

inductive ExitKind
  | quitExit | cancelExit | panicExit | rawFail
  deriving DecidableEq, Repr

/-- The terminal-state effects of one interactive `Session.Run`, in order. -/
def sessionTermTrace (alt mouse paste : Bool) (k : ExitKind) : List TermEv :=
  match k with
  | .rawFail => []
  | .quitExit | .cancelExit =>
    [.rawEnter]
      ++ (if alt then [.altOn] else []) ++ (if mouse then [.mouseOn] else [])
      ++ (if paste then [.pasteOn] else []) ++ [.rendererClear]
      ++ [.cancelCtx, .rendererClose, .termRestore]
      ++ [.sigStop] ++ (if paste then [.pasteOff] else [])
      ++ (if mouse then [.mouseOff] else []) ++ (if alt then [.altOff] else [])
      ++ [.termRestore]
  | .panicExit =>
    [.rawEnter]
      ++ (if alt then [.altOn] else []) ++ (if mouse then [.mouseOn] else [])
      ++ (if paste then [.pasteOn] else []) ++ [.rendererClear]
      ++ [.sigStop] ++ (if paste then [.pasteOff] else [])
      ++ (if mouse then [.mouseOff] else []) ++ (if alt then [.altOff] else [])
      ++ [.termRestore]
      ++ [.cancelCtx, .rendererClose, .termRestore]

/-! ## Color capability detection (the color-aware renderer file)

`detectColorProfile` reads `NO_COLOR`, `COLORTERM` and `TERM` from the
environment and inspects the output writer (`*os.File`? terminal?).  We pass
that environment explicitly.  The Go string helpers (`strings.TrimSpace`,
`ToLower`, `Contains`) are modelled on character lists; `TrimSpace`/`ToLower`
are modelled for ASCII data, which covers every value the detection compares
against. -/

inductive ColorProfile
  | colorAuto | colorNone | colorANSI16 | colorANSI256 | colorTrueColor
  deriving DecidableEq, Repr

structure Env where
  noColor : String
  colorterm : String
  termVar : String
  outIsFile : Bool
  outIsTerminal : Bool
  deriving DecidableEq, Repr

def isSpaceC (c : Char) : Bool :=
  c = ' ' || c = '\t' || c = '\n' || c = (Char.ofNat 0x0B) || c = (Char.ofNat 0x0C) || c = '\r'

/-- `strings.TrimSpace` (ASCII whitespace). -/
def trimSpace (s : String) : String :=
  ⟨((s.toList.dropWhile isSpaceC).reverse.dropWhile isSpaceC).reverse⟩

/-- `strings.ToLower` (ASCII letters). -/
def asciiLower (s : String) : String :=
  ⟨s.toList.map (fun c => if 'A' ≤ c && c ≤ 'Z' then Char.ofNat (c.toNat + 32) else c)⟩

/-- `strings.Contains s sub`: `sub` occurs as a contiguous substring. -/
def containsSub (s sub : String) : Bool :=
  s.toList.tails.any (fun t => sub.toList.isPrefixOf t)

/-- `detectColorProfile` from the color-aware renderer file: `NO_COLOR`
(trimmed) disables color; an `*os.File` output that is not a terminal disables
color (a non-`*os.File` writer skips this check); `COLORTERM` containing
`truecolor` selects true color; `TERM` containing `256color` selects 256
colors; otherwise 16 colors. -/
def detectColorProfile (env : Env) : ColorProfile :=
  if trimSpace env.noColor ≠ "" then .colorNone
  else if env.outIsFile && !env.outIsTerminal then .colorNone
  else if containsSub (asciiLower env.colorterm) "truecolor" then .colorTrueColor
  else if containsSub (asciiLower env.termVar) "256color" then .colorANSI256
  else .colorANSI16

/-- `ansiRenderer.ensureColorProfile`: detection runs only while the profile
is still `ColorAuto`. -/
def ensureColorProfile (profile : ColorProfile) (env : Env) : ColorProfile :=
  if profile ≠ .colorAuto then profile else detectColorProfile env

/-! ## Styles and `StripANSI` (the style file) -/

inductive ColorKind
  | colorUnset | colorNamed16 | colorIndex256 | colorRGB
  deriving DecidableEq, Repr

structure Color where
  kind : ColorKind := .colorUnset
  index : UInt8 := 0
  r : UInt8 := 0
  g : UInt8 := 0
  b : UInt8 := 0
  named : Nat := 0      -- NamedColor, 0..7 in the source's constructors
  bright : Bool := false
  deriving DecidableEq, Repr

structure Style where
  fg : Option Color := none
  bg : Option Color := none
  bold : Bool := false
  faint : Bool := false
  italic : Bool := false
  underline : Bool := false
  blink : Bool := false
  reverse : Bool := false
  strike : Bool := false
  deriving DecidableEq, Repr

/-- `fmt.Sprintf("%d", n)` for a non-negative value: decimal digits. -/
def decDigits (n : Nat) : List Char :=
  if h : n < 10 then [Char.ofNat (48 + n)]
  else decDigits (n / 10) ++ [Char.ofNat (48 + n % 10)]
  termination_by n
  decreasing_by exact Nat.div_lt_self (by omega) (by omega)

/-- `Color.fgSGR`: the SGR parameter strings for a foreground color. -/
def fgSGR (c : Color) : List (List Char) :=
  match c.kind with
  | .colorNamed16 => [decDigits (if c.bright then 90 + c.named else 30 + c.named)]
  | .colorIndex256 => [['3', '8'], ['5'], decDigits c.index.toNat]
  | .colorRGB => [['3', '8'], ['2'], decDigits c.r.toNat, decDigits c.g.toNat, decDigits c.b.toNat]
  | .colorUnset => []

/-- `Color.bgSGR`: the SGR parameter strings for a background color. -/
def bgSGR (c : Color) : List (List Char) :=
  match c.kind with
  | .colorNamed16 => [decDigits (if c.bright then 100 + c.named else 40 + c.named)]
  | .colorIndex256 => [['4', '8'], ['5'], decDigits c.index.toNat]
  | .colorRGB => [['4', '8'], ['2'], decDigits c.r.toNat, decDigits c.g.toNat, decDigits c.b.toNat]
  | .colorUnset => []

/-- The `codes` slice `Style.Render` accumulates, in source order. -/
def styleCodes (s : Style) : List (List Char) :=
  (if s.bold then [['1']] else []) ++ (if s.faint then [['2']] else [])
    ++ (if s.italic then [['3']] else []) ++ (if s.underline then [['4']] else [])
    ++ (if s.blink then [['5']] else []) ++ (if s.reverse then [['7']] else [])
    ++ (if s.strike then [['9']] else [])
    ++ (match s.fg with | none => [] | some c => fgSGR c)
    ++ (match s.bg with | none => [] | some c => bgSGR c)

/-- `strings.Join(codes, ";")`. -/
def joinSemi : List (List Char) → List Char
  | [] => []
  | [c] => c
  | c :: rest => c ++ ';' :: joinSemi rest

/-- `Style.Render`: no codes means the text is returned untouched, otherwise
it is wrapped as `\x1b[…m` + text + `\x1b[0m`. -/
def StyleRender (s : Style) (text : String) : String :=
  let codes := styleCodes s
  if codes.isEmpty then text
  else ⟨'\x1b' :: '[' :: (joinSemi codes ++ 'm' :: (text.toList ++ ['\x1b', '[', '0', 'm']))⟩

/-- A byte the regexp class `[0-9;]` accepts. -/
def isParamC (c : Char) : Bool := ('0' ≤ c && c ≤ '9') || c = ';'

/-- One attempted match of `\x1b\[[0-9;]*m` at a position whose `\x1b` has
just been consumed: `[`, then the (unambiguous, since `m` is outside the
class) run of `[0-9;]`, then `m`; returns the suffix after the match. -/
def sgrMatch (l : List Char) : Option (List Char) :=
  match l with
  | '[' :: rest =>
    match rest.dropWhile isParamC with
    | 'm' :: rest2 => some rest2
    | _ => none
  | _ => none

theorem dropWhile_length_le {α : Type} (p : α → Bool) (l : List α) :
    (l.dropWhile p).length ≤ l.length := by
  induction l with
  | nil => simp
  | cons a t ih => by_cases h : p a <;> simp [List.dropWhile, h] <;> omega

theorem sgrMatch_length {l r : List Char} (h : sgrMatch l = some r) : r.length < l.length := by
  unfold sgrMatch at h
  split at h
  · next rest =>
    have hd : (rest.dropWhile isParamC).length ≤ rest.length := dropWhile_length_le _ rest
    split at h
    · next rest2 heq =>
      obtain rfl : rest2 = r := by injection h
      rw [heq] at hd
      simp at hd ⊢
      omega
    · exact absurd h (by simp)
  · simp at h

/-- `StripANSI`: `regexp.MustCompile("\\x1b\\[[0-9;]*m").ReplaceAllString`,
i.e. delete every non-overlapping leftmost occurrence of the SGR pattern.
Characters skipped during a failed attempt are not `\x1b`, so restarting the
scan right after a failed `\x1b` reproduces the engine's behaviour. -/
def stripANSIChars : List Char → List Char
  | [] => []
  | c :: rest =>
    if c = '\x1b' then
      match hm : sgrMatch rest with
      | some rest2 => stripANSIChars rest2
      | none => c :: stripANSIChars rest
    else c :: stripANSIChars rest
  termination_by l => l.length
  decreasing_by
    · exact Nat.lt_trans (sgrMatch_length hm) (by simp)
    · simp
    · simp

def StripANSI (s : String) : String := ⟨stripANSIChars s.toList⟩

/-! # Claims -/

/-! ## C1 — the batch combinator -/

/-- **C1** (code bug): the batch combinator is documented — both in the spec
and in the combinator variant file's own doc comment — to run the
sub-commands in order and yield the first non-nil message, and the variant
implementation (`BatchDoc`) does exactly that: with a first command yielding
nil and a second yielding `m`, the batched command yields `m`.  But the
`Batch` in `src/core/cmd.go` (`BatchCore`) only ever invokes `cmds[0]`, so the
same input yields nil.  Both facts are stated for an arbitrary message `m` and
arbitrary further commands. -/
theorem batch_first_nonnil_doc_vs_core (m : Msg) (rest : List Cmd) :
    (BatchDoc (some (fun _ => none) :: some (fun _ => some m) :: rest)).map (fun f => f ()) =
      some (.msg (some m))
    ∧ (BatchCore (some (fun _ => none) :: some (fun _ => some m) :: rest)).map (fun f => f ()) =
      some (.msg none) := by
  exact ⟨rfl, rfl⟩

/-! ## C2 — terminal raw-mode lifecycle -/

/-- **C2** (counterexample): on the normal Quit exit path (no alt screen, no
mouse, no bracketed paste) the saved terminal mode is restored **twice** —
once by the guarded `stopOnce` shutdown block and once by the deferred
`input.restore()` — not exactly once as claimed. -/
theorem session_restore_twice_on_quit :
    (sessionTermTrace false false false .quitExit).count .termRestore = 2
    ∧ ¬ (sessionTermTrace false false false .quitExit).count .termRestore = 1 := by
  decide

/-- **C2** (amended): for every configuration and every exit path on which raw
mode was entered (normal Quit exit, cancellation, panic recovery), raw mode is
entered exactly once, the cursor-show sequence (`Renderer.Close`) is emitted
exactly once, and the saved terminal mode is restored exactly **twice** (the
guarded shutdown block and the deferred restore both call `term.Restore` with
the same saved state); over all exit paths, raw mode is entered at most
once. -/
theorem session_terminal_guarantees (alt mouse paste : Bool) (k : ExitKind)
    (hk : k ≠ .rawFail) :
    ((sessionTermTrace alt mouse paste k).count .rawEnter = 1
      ∧ (sessionTermTrace alt mouse paste k).count .rendererClose = 1
      ∧ (sessionTermTrace alt mouse paste k).count .termRestore = 2)
    ∧ (∀ k2 : ExitKind, (sessionTermTrace alt mouse paste k2).count .rawEnter ≤ 1) := by
  cases k with
  | rawFail => exact absurd rfl hk
  | quitExit =>
    refine ⟨by cases alt <;> cases mouse <;> cases paste <;> decide, ?_⟩
    intro k2; cases k2 <;> cases alt <;> cases mouse <;> cases paste <;> decide
  | cancelExit =>
    refine ⟨by cases alt <;> cases mouse <;> cases paste <;> decide, ?_⟩
    intro k2; cases k2 <;> cases alt <;> cases mouse <;> cases paste <;> decide
  | panicExit =>
    refine ⟨by cases alt <;> cases mouse <;> cases paste <;> decide, ?_⟩
    intro k2; cases k2 <;> cases alt <;> cases mouse <;> cases paste <;> decide

/-- Witness for `session_terminal_guarantees` at a concrete configuration. -/
theorem session_terminal_guarantees_witness :
    (((sessionTermTrace true true true .panicExit).count .rawEnter = 1
      ∧ (sessionTermTrace true true true .panicExit).count .rendererClose = 1
      ∧ (sessionTermTrace true true true .panicExit).count .termRestore = 2)
    ∧ (∀ k2 : ExitKind, (sessionTermTrace true true true k2).count .rawEnter ≤ 1)) :=
  session_terminal_guarantees true true true .panicExit (by decide)

/-! ## C9 — color capability detection -/

/-- **C9** (counterexample): the claim says that (with no `NO_COLOR` override)
a non-terminal output disables color.  The code only applies the terminal
check when the output is an `*os.File`: with a non-`*os.File`, non-terminal
writer and `COLORTERM=truecolor`, detection selects true color instead of
disabling it. -/
theorem detect_nonterminal_not_disabled :
    ¬ (∀ env : Env, trimSpace env.noColor = "" → env.outIsTerminal = false →
        detectColorProfile env = .colorNone) := by
  intro h
  exact absurd
    (h { noColor := "", colorterm := "truecolor", termVar := "",
         outIsFile := false, outIsTerminal := false } (by decide) rfl)
    (by decide)

/-- **C9** (amended): detection resolves in order — `NO_COLOR` non-empty
after trimming whitespace disables color; otherwise an `*os.File` output that
is not a terminal disables color (a non-`*os.File` writer skips this check);
otherwise `COLORTERM` containing `truecolor` (case-insensitively) selects
true color; otherwise `TERM` containing `256color` selects 256-color;
otherwise the default is 16-color.  And detection runs at most once per
renderer: once the profile is no longer `ColorAuto` (which `detectColorProfile`
never returns), `ensureColorProfile` leaves it untouched. -/
theorem detect_color_priority (env : Env) :
    (trimSpace env.noColor ≠ "" → detectColorProfile env = .colorNone)
    ∧ (trimSpace env.noColor = "" → env.outIsFile = true → env.outIsTerminal = false →
        detectColorProfile env = .colorNone)
    ∧ (trimSpace env.noColor = "" → (env.outIsFile = false ∨ env.outIsTerminal = true) →
        containsSub (asciiLower env.colorterm) "truecolor" = true →
        detectColorProfile env = .colorTrueColor)
    ∧ (trimSpace env.noColor = "" → (env.outIsFile = false ∨ env.outIsTerminal = true) →
        containsSub (asciiLower env.colorterm) "truecolor" = false →
        containsSub (asciiLower env.termVar) "256color" = true →
        detectColorProfile env = .colorANSI256)
    ∧ (trimSpace env.noColor = "" → (env.outIsFile = false ∨ env.outIsTerminal = true) →
        containsSub (asciiLower env.colorterm) "truecolor" = false →
        containsSub (asciiLower env.termVar) "256color" = false →
        detectColorProfile env = .colorANSI16)
    ∧ (detectColorProfile env ≠ .colorAuto)
    ∧ (∀ p : ColorProfile, p ≠ .colorAuto → ensureColorProfile p env = p)
    ∧ (ensureColorProfile (ensureColorProfile .colorAuto env) env
        = ensureColorProfile .colorAuto env) := by
  have hfs : (env.outIsFile = false ∨ env.outIsTerminal = true) →
      (env.outIsFile && !env.outIsTerminal) = false := by
    intro hb; rcases hb with h | h <;> simp [h]
  have hna : detectColorProfile env ≠ .colorAuto := by
    unfold detectColorProfile; split_ifs <;> decide
  refine ⟨?_, ?_, ?_, ?_, ?_, hna, ?_, ?_⟩
  · intro h; simp [detectColorProfile, h]
  · intro h1 h2 h3; simp [detectColorProfile, h1, h2, h3]
  · intro h1 h2 h3; simp [detectColorProfile, h1, hfs h2, h3]
  · intro h1 h2 h3 h4; simp [detectColorProfile, h1, hfs h2, h3, h4]
  · intro h1 h2 h3 h4; simp [detectColorProfile, h1, hfs h2, h3, h4]
  · intro p hp; simp [ensureColorProfile, hp]
  · have h1 : ensureColorProfile .colorAuto env = detectColorProfile env := by
      simp [ensureColorProfile]
    rw [h1]
    simp [ensureColorProfile, hna]

/-- Witness for `detect_color_priority`: a terminal output with an upper-case
`COLORTERM=…TRUECOLOR…` hint selects true color. -/
theorem detect_color_priority_witness :
    detectColorProfile { noColor := "", colorterm := "xterm TRUECOLOR", termVar := "",
                         outIsFile := true, outIsTerminal := true } = .colorTrueColor :=
  (detect_color_priority _).2.2.1 (by decide) (Or.inr rfl) (by decide)

/-! ## C4 — the Quit cycle of the main loop -/

theorem loopRun_msgNone {σ : Type} (upd : σ → Msg → σ × Bool) (vw : σ → String)
    (m : σ) (rest : List LoopItem) :
    loopRun upd vw m (.message none :: rest) = loopRun upd vw m rest := by
  rw [loopRun]

theorem loopRun_msgSome {σ : Type} (upd : σ → Msg → σ × Bool) (vw : σ → String)
    (m : σ) (msg : Msg) (rest : List LoopItem) :
    loopRun upd vw m (.message (some msg) :: rest) =
      (let m' := (upd m msg).1
       let evs : List LoopEv := [.updateCall msg, .renderCall (vw m')] ++
         (if (upd m msg).2 then [.dispatchCmd] else [])
       if msg = .quit then (m', evs, rest)
       else
         let r := loopRun upd vw m' rest
         (r.1, evs ++ r.2.1, r.2.2)) := by
  rw [loopRun]

/-- **C4**: for every run of the main loop, after any prefix of non-Quit
(possibly nil) queued messages, dequeuing a `QuitMsg` still calls `Update`
with it, replaces the stored model with `Update`'s result, renders the new
model's view (dispatching a returned command), and then exits the loop: the
items after the Quit are exactly the leftover never dequeued. -/
theorem loop_quit_cycle {σ : Type} (upd : σ → Msg → σ × Bool) (vw : σ → String)
    (m : σ) (preMsgs : List (Option Msg)) (post : List LoopItem)
    (hpre : ∀ om ∈ preMsgs, om ≠ some Msg.quit) :
    loopRun upd vw m (preMsgs.map LoopItem.message ++ .message (some .quit) :: post) =
      ((upd (loopRun upd vw m (preMsgs.map LoopItem.message)).1 .quit).1,
        (loopRun upd vw m (preMsgs.map LoopItem.message)).2.1
          ++ ([.updateCall .quit,
               .renderCall (vw (upd (loopRun upd vw m (preMsgs.map LoopItem.message)).1 .quit).1)]
            ++ (if (upd (loopRun upd vw m (preMsgs.map LoopItem.message)).1 .quit).2
                then [.dispatchCmd] else [])),
        post) := by
  induction preMsgs generalizing m with
  | nil =>
    simp only [List.map_nil, List.nil_append]
    rw [loopRun_msgSome]
    simp [loopRun]
  | cons om rest ih =>
    have hom : om ≠ some Msg.quit := hpre om (List.mem_cons_self om rest)
    have hrest : ∀ x ∈ rest, x ≠ some Msg.quit := fun x hx => hpre x (List.mem_cons_of_mem om hx)
    cases om with
    | none =>
      simp only [List.map_cons, List.cons_append, loopRun_msgNone]
      exact ih m hrest
    | some msg =>
      have hq : ¬ (msg = Msg.quit) := fun h => hom (by rw [h])
      simp only [List.map_cons, List.cons_append, loopRun_msgSome]
      simp only [hq, if_false]
      rw [ih (upd m msg).1 hrest]
      simp [List.append_assoc]

/-- Witness for `loop_quit_cycle`: a concrete counter model with one non-Quit
key message before the Quit and one item after it. -/
theorem loop_quit_cycle_witness :
    loopRun (fun (n : Nat) _ => (n + 1, false)) (fun n => toString n) 0
        ([some (Msg.key { type := .keyEnter, str := "\r" })].map LoopItem.message
          ++ .message (some .quit) :: [.ctxDone]) =
      ((Nat.succ
          (loopRun (fun (n : Nat) _ => (n + 1, false)) (fun n => toString n) 0
            ([some (Msg.key { type := .keyEnter, str := "\r" })].map LoopItem.message)).1,
        (loopRun (fun (n : Nat) _ => (n + 1, false)) (fun n => toString n) 0
            ([some (Msg.key { type := .keyEnter, str := "\r" })].map LoopItem.message)).2.1
          ++ ([.updateCall .quit,
               .renderCall (toString (Nat.succ
                 (loopRun (fun (n : Nat) _ => (n + 1, false)) (fun n => toString n) 0
                   ([some (Msg.key { type := .keyEnter, str := "\r" })].map LoopItem.message)).1))]
            ++ []),
        [.ctxDone])) := by
  have h := loop_quit_cycle (fun (n : Nat) _ => (n + 1, false)) (fun n => toString n) 0
    [some (Msg.key { type := .keyEnter, str := "\r" })] [.ctxDone]
    (by intro om hom; simp at hom; subst hom; decide)
  simpa using h

/-! ## C3 — diff-based rendering -/

/-- **C3**: (1) with the terminal prepared, rendering a text whose normalized
form equals the last painted frame writes nothing; (2) with diffing enabled
and a prior frame cached, the writes are exactly the row-diff writes; (3) the
row-diff writes never address a row whose line is unchanged (each row touch
starts with a cursor move to that 1-based row); (4) the concrete frame
sequence: after `clear()`, `render("A\nB")` full-repaints, `render("A\nB")`
again writes nothing, `render("A\nC")` writes only at row 2 (move, new
content, erase to end of line), and `render("A")` writes only a move to row 2
plus a full-line erase. -/
theorem renderer_diff_minimal :
    (∀ (st : RState) (s : String), st.cleared = true → normalizeNewlines s = st.last →
      (rendRender st s).2 = [])
    ∧ (∀ (st : RState) (s : String), st.cleared = true → st.useDiff = true →
        st.lines ≠ [] → normalizeNewlines s ≠ st.last →
        (rendRender st s).2 = diffWrites st.lines (splitKeep (normalizeNewlines s)))
    ∧ (∀ (old new : List String) (i : Nat), i < new.length →
        old.getD i "" = new.getD i "" →
        ∀ r c, Write.move r c ∈ diffWrites old new → r ≠ i + 1)
    ∧ ((rendRender (rendClear newANSIRenderer).1 "A\nB").2 =
        [.home, .text "A\nB", .eraseToEndScreen]
      ∧ (rendRender (rendRender (rendClear newANSIRenderer).1 "A\nB").1 "A\nB").2 = []
      ∧ (rendRender (rendRender (rendClear newANSIRenderer).1 "A\nB").1 "A\nC").2 =
          [.move 2 1, .text "C", .eraseToEOL]
      ∧ (rendRender (rendRender (rendClear newANSIRenderer).1 "A\nB").1 "A").2 =
          [.move 2 1, .eraseLine]) := by
  refine ⟨?_, ?_, ?_, by decide⟩
  · intro st s h1 h2
    simp [rendRender, h1, h2]
  · intro st s h1 h2 h3 h4
    have hne : st.lines.isEmpty = false := by
      cases hl : st.lines with
      | nil => exact absurd hl h3
      | cons a t => simp
    simp [rendRender, h1, h2, h3, h4, hne]
  · intro old new i hi heq r c hmem
    unfold diffWrites at hmem
    rw [List.mem_flatMap] at hmem
    obtain ⟨j, hj, hfj⟩ := hmem
    intro hr
    have hji : j = i := by
      split_ifs at hfj with hlen hchg
      · simp [Write.move.injEq] at hfj
        omega
      · simp [Write.move.injEq] at hfj
        omega
      · simp at hfj
    subst hji
    split_ifs at hfj with hlen hchg
    · omega
    · exact hchg heq
    · simp at hfj

/-- Witness for `renderer_diff_minimal` at a concrete prepared state. -/
theorem renderer_diff_minimal_witness :
    (rendRender { last := "A", lines := ["A"], cleared := true, useDiff := true } "A").2 = [] :=
  renderer_diff_minimal.1 { last := "A", lines := ["A"], cleared := true, useDiff := true } "A"
    rfl (by decide)

/-! ## C5 — generic CSI parsing -/

theorem param_not_terminator {b : UInt8} (hp : isParamByte b = true) :
    b ≠ 0x41 ∧ b ≠ 0x42 ∧ b ≠ 0x43 ∧ b ≠ 0x44 ∧ b ≠ 0x48 ∧ b ≠ 0x46 ∧ b ≠ 0x7E := by
  refine ⟨?_, ?_, ?_, ?_, ?_, ?_, ?_⟩ <;> (intro h; subst h; revert hp; decide)

/-- The CSI loop consumes every leading parameter byte into `params`. -/
theorem readCSIAux_params (e : Bool) (ps : List UInt8)
    (hps : ∀ b ∈ ps, isParamByte b = true) :
    ∀ (params l : List UInt8),
      readCSIAux params e (ps ++ l) = readCSIAux (params ++ ps) e l := by
  induction ps with
  | nil => intro params l; simp
  | cons b t ih =>
    intro params l
    have hb : isParamByte b = true := hps b (List.mem_cons_self b t)
    have ht : ∀ x ∈ t, isParamByte x = true := fun x hx => hps x (List.mem_cons_of_mem b hx)
    obtain ⟨n1, n2, n3, n4, n5, n6, n7⟩ := param_not_terminator hb
    show readCSIAux params e (b :: (t ++ l)) = _
    simp only [readCSIAux, beq_eq_false_iff_ne.mpr n1, beq_eq_false_iff_ne.mpr n2,
      beq_eq_false_iff_ne.mpr n3, beq_eq_false_iff_ne.mpr n4, beq_eq_false_iff_ne.mpr n5,
      beq_eq_false_iff_ne.mpr n6, beq_eq_false_iff_ne.mpr n7, hb, if_false, if_true,
      Bool.false_eq_true]
    rw [ih ht (params ++ [b]) l]
    simp

/-- **C5**: after accumulating any sequence of digit/`;` parameter bytes, the
CSI terminators decode as claimed: `A/B/C/D` → arrows, `H` → Home, `F` → End;
`~` with parameter `3`/`5`/`6` → Delete/PageUp/PageDown, parameter `2` or any
other parameter → Escape carrying the literal sequence; any other
non-parameter terminator → Escape carrying the literal sequence observed so
far. -/
theorem csi_terminator_table (ps rest : List UInt8) (e : Bool)
    (hps : ∀ b ∈ ps, isParamByte b = true) :
    (readCSI ⟨ps ++ 0x41 :: rest, e⟩ = .ok (.key { type := .keyUp, str := "\x1b[A" }) ⟨rest, e⟩
      ∧ readCSI ⟨ps ++ 0x42 :: rest, e⟩ = .ok (.key { type := .keyDown, str := "\x1b[B" }) ⟨rest, e⟩
      ∧ readCSI ⟨ps ++ 0x43 :: rest, e⟩ = .ok (.key { type := .keyRight, str := "\x1b[C" }) ⟨rest, e⟩
      ∧ readCSI ⟨ps ++ 0x44 :: rest, e⟩ = .ok (.key { type := .keyLeft, str := "\x1b[D" }) ⟨rest, e⟩
      ∧ readCSI ⟨ps ++ 0x48 :: rest, e⟩ = .ok (.key { type := .keyHome, str := "\x1b[H" }) ⟨rest, e⟩
      ∧ readCSI ⟨ps ++ 0x46 :: rest, e⟩ = .ok (.key { type := .keyEnd, str := "\x1b[F" }) ⟨rest, e⟩)
    ∧ readCSI ⟨ps ++ 0x7E :: rest, e⟩ =
        (if ps = bytes "3" then .ok (.key { type := .keyDelete, str := "\x1b[3~" }) ⟨rest, e⟩
         else if ps = bytes "5" then .ok (.key { type := .keyPgUp, str := "\x1b[5~" }) ⟨rest, e⟩
         else if ps = bytes "6" then .ok (.key { type := .keyPgDn, str := "\x1b[6~" }) ⟨rest, e⟩
         else if ps = bytes "2" then .ok (.key { type := .keyEsc, str := "\x1b[2~" }) ⟨rest, e⟩
         else .ok (.key { type := .keyEsc, str := "\x1b[" ++ asciiStr ps ++ "~" }) ⟨rest, e⟩)
    ∧ (∀ t : UInt8, isParamByte t = false →
        t ∉ ([0x41, 0x42, 0x43, 0x44, 0x48, 0x46, 0x7E] : List UInt8) →
        readCSI ⟨ps ++ t :: rest, e⟩ =
          .ok (.key { type := .keyEsc, str := "\x1b[" ++ asciiStr ps ++ asciiStr [t] }) ⟨rest, e⟩) := by
  have hstep : ∀ l, readCSI ⟨ps ++ l, e⟩ = readCSIAux ps e l := by
    intro l
    show readCSIAux [] e (ps ++ l) = _
    rw [readCSIAux_params e ps hps [] l]
    simp
  refine ⟨⟨?_, ?_, ?_, ?_, ?_, ?_⟩, ?_, ?_⟩
  · rw [hstep]; simp [readCSIAux]
  · rw [hstep]; simp [readCSIAux]
  · rw [hstep]; simp [readCSIAux]
  · rw [hstep]; simp [readCSIAux]
  · rw [hstep]; simp [readCSIAux]
  · rw [hstep]; simp [readCSIAux]
  · rw [hstep]; simp [readCSIAux]
  · intro t hpt htm
    simp only [List.mem_cons, List.mem_singleton] at htm
    push_neg at htm
    obtain ⟨m1, m2, m3, m4, m5, m6, m7, -⟩ := htm
    rw [hstep]
    simp [readCSIAux, beq_eq_false_iff_ne.mpr m1, beq_eq_false_iff_ne.mpr m2,
      beq_eq_false_iff_ne.mpr m3, beq_eq_false_iff_ne.mpr m4, beq_eq_false_iff_ne.mpr m5,
      beq_eq_false_iff_ne.mpr m6, beq_eq_false_iff_ne.mpr m7, hpt]

/-- Witness for `csi_terminator_table`: parameters `1;5`, recognized and
unrecognized terminators. -/
theorem csi_terminator_table_witness :
    readCSI ⟨bytes "1;5" ++ 0x41 :: [], false⟩ =
      .ok (.key { type := .keyUp, str := "\x1b[A" }) ⟨[], false⟩ :=
  (csi_terminator_table (bytes "1;5") [] false (by decide)).1.1

/-! ## C6 — the decoder's no-blocking discipline -/

theorem takeWhile_append_all {α : Type} (p : α → Bool) (ds l : List α)
    (h : ∀ b ∈ ds, p b = true) :
    (ds ++ l).takeWhile p = ds ++ l.takeWhile p := by
  induction ds with
  | nil => simp
  | cons a t ih =>
    have ha : p a = true := h a (List.mem_cons_self a t)
    have ht : ∀ b ∈ t, p b = true := fun b hb => h b (List.mem_cons_of_mem a hb)
    simp [List.takeWhile_cons, ha, ih ht]

theorem dropWhile_append_all {α : Type} (p : α → Bool) (ds l : List α)
    (h : ∀ b ∈ ds, p b = true) :
    (ds ++ l).dropWhile p = l.dropWhile p := by
  induction ds with
  | nil => simp
  | cons a t ih =>
    have ha : p a = true := h a (List.mem_cons_self a t)
    have ht : ∀ b ∈ t, p b = true := fun b hb => h b (List.mem_cons_of_mem a hb)
    simp [List.dropWhile_cons, ha, ih ht]

/-- `readNum` on a buffer that starts with digits `ds` followed by a
non-digit: consumes exactly `ds` and yields its decimal value. -/
theorem readNumM_digits (ds : List UInt8) (c : UInt8) (rest : List UInt8) (e : Bool)
    (hne : ds ≠ []) (hd : ∀ b ∈ ds, isDigitB b = true) (hv : natOfDigits ds ≤ maxGoInt)
    (hc : isDigitB c = false) :
    readNumM ⟨ds ++ c :: rest, e⟩ = (some (natOfDigits ds), ⟨c :: rest, e⟩) := by
  unfold readNumM
  rw [show (⟨ds ++ c :: rest, e⟩ : RD).buf = ds ++ c :: rest from rfl]
  rw [takeWhile_append_all _ _ _ hd, dropWhile_append_all _ _ _ hd]
  simp [List.takeWhile_cons, List.dropWhile_cons, hc, hne, hv]

/-- **C6** (counterexample): the claim says the decoder never waits for
further input inside SGR mouse parsing.  But with exactly `ESC [ < 0`
buffered (and the stream not at EOF), the mouse parser's unguarded read of
the first `;` separator waits for more input: the decode is `blocked`, not a
bare Escape key. -/
theorem mouse_separator_read_blocks :
    readEscape ⟨bytes "[<0", false⟩ = .blocked
    ∧ ∀ (m : Msg) (rd : RD), readEscape ⟨bytes "[<0", false⟩ ≠ .ok m rd := by
  refine ⟨by decide, ?_⟩
  intro m rd h
  rw [show readEscape ⟨bytes "[<0", false⟩ = .blocked from by decide] at h
  exact ROut.noConfusion h

/-- **C6** (amended): the guarded states never wait: ESC with nothing
buffered yields bare Escape; a CSI whose buffer holds only parameter bytes
(no terminator yet) yields bare Escape when the buffer empties; the mouse
parser's *detected* failures — no digits at a number position, or a
wrong (buffered) separator byte — yield bare Escape; and an ESC continuation
that does not decode to a valid non-control character yields bare Escape.
(The mouse parser's two `;`-separator reads and final-byte read are unguarded
and may wait, per the counterexample.) -/
theorem decoder_fallback_discipline :
    (∀ e : Bool, readEscape ⟨[], e⟩ = .ok (.key bareEsc) ⟨[], e⟩)
    ∧ (∀ (ps : List UInt8) (e : Bool), (∀ b ∈ ps, isParamByte b = true) →
        readCSI ⟨ps, e⟩ = .ok (.key bareEsc) ⟨[], e⟩)
    ∧ (∀ e : Bool, readMouseSGR ⟨[], e⟩ = .ok (.key bareEsc) ⟨[], e⟩)
    ∧ (∀ (b : UInt8) (rest : List UInt8) (e : Bool), isDigitB b = false →
        readMouseSGR ⟨b :: rest, e⟩ = .ok (.key bareEsc) ⟨b :: rest, e⟩)
    ∧ (∀ (ds : List UInt8) (c : UInt8) (rest : List UInt8) (e : Bool),
        ds ≠ [] → (∀ b ∈ ds, isDigitB b = true) → natOfDigits ds ≤ maxGoInt →
        isDigitB c = false → c ≠ 0x3B →
        readMouseSGR ⟨ds ++ c :: rest, e⟩ = .ok (.key bareEsc) ⟨rest, e⟩)
    ∧ (∀ (nb : UInt8) (rest : List UInt8) (e : Bool), nb ≠ 0x5B →
        ((decodeRune (fillRune [nb] rest).1).1 = runeError
          ∨ isControlRune (decodeRune (fillRune [nb] rest).1).1 = true) →
        readEscape ⟨nb :: rest, e⟩ = .ok (.key bareEsc) ⟨(fillRune [nb] rest).2, e⟩) := by
  refine ⟨?_, ?_, ?_, ?_, ?_, ?_⟩
  · intro e; simp [readEscape]
  · intro ps e hps
    show readCSIAux [] e ps = _
    have := readCSIAux_params e ps hps [] []
    simp only [List.append_nil] at this
    rw [this]
    simp [readCSIAux]
  · intro e; simp [readMouseSGR, readNumM]
  · intro b rest e hb
    simp [readMouseSGR, readNumM, List.takeWhile_cons, List.dropWhile_cons, hb]
  · intro ds c rest e hne hd hv hc hcs
    simp only [readMouseSGR, readNumM_digits ds c rest e hne hd hv hc]
    have : readByteR ⟨c :: rest, e⟩ = .ok (some c) ⟨rest, e⟩ := rfl
    rw [this]
    simp [hcs]
  · intro nb rest e hnb h
    simp only [readEscape, beq_eq_false_iff_ne.mpr hnb, Bool.false_eq_true, if_false]
    rcases h with h | h
    · simp [h]
    · simp [h]

/-- Witness for `decoder_fallback_discipline`: a CSI buffer that empties
mid-sequence. -/
theorem decoder_fallback_discipline_witness :
    readCSI ⟨bytes "1;5", false⟩ = .ok (.key bareEsc) ⟨[], false⟩ :=
  decoder_fallback_discipline.2.1 (bytes "1;5") false (by decide)

/-! ## C7 — SGR mouse decoding -/

/-- **C7**: an SGR mouse sequence `b ; x ; y` + final `M`/`m` decodes with the
claimed bit layout — bit 2 shift, bit 3 alt, bit 4 ctrl; bit 6 wheel with
bit 0 choosing wheel-down/up; otherwise bits 0–1 choose left/middle/right,
final `m` means release, bit 5 drag, else press; column/row are the decoded
decimal numbers.  In particular `ESC[<0;10;20M` is a left-button press at
column 10, row 20, and `ESC[<64;1;1M` is wheel-up at (1,1). -/
theorem mouse_sgr_bit_layout (ds1 ds2 ds3 rest : List UInt8) (e : Bool) (fin : UInt8)
    (h1 : ds1 ≠ []) (h1d : ∀ b ∈ ds1, isDigitB b = true) (h1v : natOfDigits ds1 ≤ maxGoInt)
    (h2 : ds2 ≠ []) (h2d : ∀ b ∈ ds2, isDigitB b = true) (h2v : natOfDigits ds2 ≤ maxGoInt)
    (h3 : ds3 ≠ []) (h3d : ∀ b ∈ ds3, isDigitB b = true) (h3v : natOfDigits ds3 ≤ maxGoInt)
    (hf : fin = 0x4D ∨ fin = 0x6D) :
    readMouseSGR ⟨ds1 ++ 0x3B :: (ds2 ++ 0x3B :: (ds3 ++ fin :: rest)), e⟩ =
      .ok (.mouse
        { button :=
            if natOfDigits ds1 &&& 64 ≠ 0 then
              (if natOfDigits ds1 &&& 1 = 1 then .mouseWheelDown else .mouseWheelUp)
            else if natOfDigits ds1 &&& 3 = 0 then .mouseLeft
            else if natOfDigits ds1 &&& 3 = 1 then .mouseMiddle
            else if natOfDigits ds1 &&& 3 = 2 then .mouseRight
            else .mouseUnknown
          action :=
            if natOfDigits ds1 &&& 64 ≠ 0 then .mouseWheel
            else if fin == 0x6D then .mouseRelease
            else if natOfDigits ds1 &&& 32 ≠ 0 then .mouseDrag
            else .mousePress
          x := natOfDigits ds2
          y := natOfDigits ds3
          alt := natOfDigits ds1 &&& 8 ≠ 0
          ctrl := natOfDigits ds1 &&& 16 ≠ 0
          shift := natOfDigits ds1 &&& 4 ≠ 0 }) ⟨rest, e⟩
    ∧ readEscape ⟨bytes "[<0;10;20M", e⟩ =
        .ok (.mouse { button := .mouseLeft, action := .mousePress, x := 10, y := 20,
                      alt := false, ctrl := false, shift := false }) ⟨[], e⟩
    ∧ readEscape ⟨bytes "[<64;1;1M", e⟩ =
        .ok (.mouse { button := .mouseWheelUp, action := .mouseWheel, x := 1, y := 1,
                      alt := false, ctrl := false, shift := false }) ⟨[], e⟩ := by
  have hfd : isDigitB fin = false := by
    rcases hf with h | h <;> (subst h; decide)
  refine ⟨?_, by cases e <;> decide, by cases e <;> decide⟩
  have e1 := readNumM_digits ds1 0x3B (ds2 ++ 0x3B :: (ds3 ++ fin :: rest)) e h1 h1d h1v
    (by decide)
  have e2 := readNumM_digits ds2 0x3B (ds3 ++ fin :: rest) e h2 h2d h2v (by decide)
  have e3 := readNumM_digits ds3 fin rest e h3 h3d h3v hfd
  simp only [readMouseSGR, e1]
  rw [show readByteR ⟨0x3B :: (ds2 ++ 0x3B :: (ds3 ++ fin :: rest)), e⟩ =
        .ok (some 0x3B) ⟨ds2 ++ 0x3B :: (ds3 ++ fin :: rest), e⟩ from rfl]
  simp only [ne_eq, not_true_eq_false, if_false, reduceIte, e2]
  rw [show readByteR ⟨0x3B :: (ds3 ++ fin :: rest), e⟩ =
        .ok (some 0x3B) ⟨ds3 ++ fin :: rest, e⟩ from rfl]
  simp only [ne_eq, not_true_eq_false, if_false, reduceIte, e3]
  rw [show readByteR ⟨fin :: rest, e⟩ = .ok (some fin) ⟨rest, e⟩ from rfl]
  simp only [Option.getD_some]
  by_cases h64 : natOfDigits ds1 &&& 64 = 0
  · simp [h64]
  · simp [h64]

/-- Witness for `mouse_sgr_bit_layout`: a ctrl-drag of the middle button,
`ESC[<53;3;7M` (53 = 32 + 16 + 4 + 1). -/
theorem mouse_sgr_bit_layout_witness :
    readMouseSGR ⟨bytes "53" ++ 0x3B :: (bytes "3" ++ 0x3B :: (bytes "7" ++ 0x4D :: [])), true⟩ =
      .ok (.mouse
        { button :=
            if natOfDigits (bytes "53") &&& 64 ≠ 0 then
              (if natOfDigits (bytes "53") &&& 1 = 1 then .mouseWheelDown else .mouseWheelUp)
            else if natOfDigits (bytes "53") &&& 3 = 0 then .mouseLeft
            else if natOfDigits (bytes "53") &&& 3 = 1 then .mouseMiddle
            else if natOfDigits (bytes "53") &&& 3 = 2 then .mouseRight
            else .mouseUnknown
          action :=
            if natOfDigits (bytes "53") &&& 64 ≠ 0 then .mouseWheel
            else if (0x4D : UInt8) == 0x6D then .mouseRelease
            else if natOfDigits (bytes "53") &&& 32 ≠ 0 then .mouseDrag
            else .mousePress
          x := natOfDigits (bytes "3")
          y := natOfDigits (bytes "7")
          alt := natOfDigits (bytes "53") &&& 8 ≠ 0
          ctrl := natOfDigits (bytes "53") &&& 16 ≠ 0
          shift := natOfDigits (bytes "53") &&& 4 ≠ 0 }) ⟨[], true⟩ :=
  (mouse_sgr_bit_layout (bytes "53") (bytes "3") (bytes "7") [] true 0x4D
    (by decide) (by decide) (by decide) (by decide) (by decide) (by decide)
    (by decide) (by decide) (by decide) (Or.inl rfl)).1

/-! ## C8 — bracketed paste -/

theorem peekSeq_self_append (l1 rest : List UInt8) (e : Bool) :
    peekSeq ⟨l1 ++ rest, e⟩ l1 = true := by
  simp [peekSeq, List.take_left]

/-- Running the paste loop over an ESC-free payload that fits the limit,
followed by the terminator: the payload lands in the accumulator and the
terminator is consumed. -/
theorem readPasteAux_run (payload : List UInt8) :
    ∀ (acc rest : List UInt8) (e : Bool), (∀ b ∈ payload, b ≠ 0x1B) →
      acc.length + payload.length ≤ maxPaste →
      readPasteAux acc e (payload ++ 0x1B :: (bytes "[201~" ++ rest)) =
        .ok (.paste ⟨acc ++ payload⟩) ⟨rest, e⟩ := by
  induction payload with
  | nil =>
    intro acc rest e _ _
    have hpeek : peekSeq ⟨bytes "[201~" ++ rest, e⟩ (bytes "[201~") = true :=
      peekSeq_self_append _ _ _
    have hdrop : (bytes "[201~" ++ rest).drop 5 = rest := by
      rw [show (5 : Nat) = (bytes "[201~").length from by decide]
      exact List.drop_left _ _
    by_cases hlen : maxPaste ≤ acc.length <;>
      simp [readPasteAux, hlen, hpeek, discard, hdrop]
  | cons b t ih =>
    intro acc rest e hesc hfit
    have hb : b ≠ 0x1B := hesc b (List.mem_cons_self b t)
    have ht : ∀ x ∈ t, x ≠ 0x1B := fun x hx => hesc x (List.mem_cons_of_mem b hx)
    have hlen : ¬ maxPaste ≤ acc.length := by
      simp only [List.length_cons] at hfit; omega
    have hfit2 : (acc ++ [b]).length + t.length ≤ maxPaste := by
      simp only [List.length_append, List.length_cons, List.length_nil] at hfit ⊢; omega
    show readPasteAux acc e (b :: (t ++ 0x1B :: (bytes "[201~" ++ rest))) = _
    simp only [readPasteAux, hlen, if_false, beq_eq_false_iff_ne.mpr hb, Bool.false_eq_true,
      reduceIte]
    rw [ih (acc ++ [b]) rest e ht hfit2]
    simp

/-- The paste accumulator never exceeds `maxPaste`. -/
theorem readPasteAux_bound :
    ∀ (l acc : List UInt8) (e : Bool) (res : PasteMsg) (rd2 : RD),
      readPasteAux acc e l = .ok (.paste res) rd2 → acc.length ≤ maxPaste →
      res.text.length ≤ maxPaste := by
  intro l
  induction l with
  | nil =>
    intro acc e res rd2 h hacc
    cases e with
    | true =>
      simp only [readPasteAux, if_true] at h
      obtain ⟨h1, -⟩ := (by exact ROut.ok.inj h : Msg.paste ⟨acc⟩ = Msg.paste res ∧ _)
      obtain rfl : (⟨acc⟩ : PasteMsg) = res := Msg.paste.inj h1
      exact hacc
    | false => simp [readPasteAux] at h
  | cons b t ih =>
    intro acc e res rd2 h hacc
    simp only [readPasteAux] at h
    split_ifs at h with h1 h2 h3 h4
    · obtain ⟨he, -⟩ := (by exact ROut.ok.inj h : Msg.paste ⟨acc⟩ = Msg.paste res ∧ _)
      obtain rfl : (⟨acc⟩ : PasteMsg) = res := Msg.paste.inj he
      exact hacc
    · exact ih acc e res rd2 h hacc
    · obtain ⟨he, -⟩ := (by exact ROut.ok.inj h : Msg.paste ⟨acc⟩ = Msg.paste res ∧ _)
      obtain rfl : (⟨acc⟩ : PasteMsg) = res := Msg.paste.inj he
      exact hacc
    · exact ih (acc ++ [b]) e res rd2 h (by simp at h1 ⊢; omega)
    · exact ih (acc ++ [b]) e res rd2 h (by simp at h1 ⊢; omega)

/-- One step of the CSI loop either ends with a key event or recurses. -/
theorem readCSIAux_step_shape (params : List UInt8) (e : Bool) (b : UInt8) (t : List UInt8) :
    (∃ k rd2, readCSIAux params e (b :: t) = .ok (.key k) rd2)
    ∨ readCSIAux params e (b :: t) = readCSIAux (params ++ [b]) e t := by
  simp only [readCSIAux]
  by_cases h1 : (b == 0x41) = true
  · rw [if_pos h1]; exact Or.inl ⟨_, _, rfl⟩
  rw [if_neg h1]
  by_cases h2 : (b == 0x42) = true
  · rw [if_pos h2]; exact Or.inl ⟨_, _, rfl⟩
  rw [if_neg h2]
  by_cases h3 : (b == 0x43) = true
  · rw [if_pos h3]; exact Or.inl ⟨_, _, rfl⟩
  rw [if_neg h3]
  by_cases h4 : (b == 0x44) = true
  · rw [if_pos h4]; exact Or.inl ⟨_, _, rfl⟩
  rw [if_neg h4]
  by_cases h5 : (b == 0x48) = true
  · rw [if_pos h5]; exact Or.inl ⟨_, _, rfl⟩
  rw [if_neg h5]
  by_cases h6 : (b == 0x46) = true
  · rw [if_pos h6]; exact Or.inl ⟨_, _, rfl⟩
  rw [if_neg h6]
  by_cases h7 : (b == 0x7E) = true
  · rw [if_pos h7]
    by_cases p3 : params = bytes "3"
    · rw [if_pos p3]; exact Or.inl ⟨_, _, rfl⟩
    rw [if_neg p3]
    by_cases p5 : params = bytes "5"
    · rw [if_pos p5]; exact Or.inl ⟨_, _, rfl⟩
    rw [if_neg p5]
    by_cases p6 : params = bytes "6"
    · rw [if_pos p6]; exact Or.inl ⟨_, _, rfl⟩
    rw [if_neg p6]
    by_cases p2 : params = bytes "2"
    · rw [if_pos p2]; exact Or.inl ⟨_, _, rfl⟩
    rw [if_neg p2]
    exact Or.inl ⟨_, _, rfl⟩
  rw [if_neg h7]
  by_cases h8 : isParamByte b = true
  · rw [if_pos h8]; exact Or.inr rfl
  rw [if_neg h8]
  exact Or.inl ⟨_, _, rfl⟩

/-- The CSI parser never produces a paste event. -/
theorem readCSIAux_no_paste :
    ∀ (l params : List UInt8) (e : Bool) (p : PasteMsg) (rd2 : RD),
      readCSIAux params e l ≠ .ok (.paste p) rd2 := by
  intro l
  induction l with
  | nil => intro params e p rd2 h; exact Msg.noConfusion (ROut.ok.inj h).1
  | cons b t ih =>
    intro params e p rd2 h
    rcases readCSIAux_step_shape params e b t with ⟨k, rd3, hk⟩ | hstep
    · rw [hk] at h
      exact Msg.noConfusion (ROut.ok.inj h).1
    · rw [hstep] at h
      exact ih (params ++ [b]) e p rd2 h

/-- The SGR mouse parser never produces a paste event. -/
theorem readMouseSGR_no_paste (rd : RD) (p : PasteMsg) (rd2 : RD) :
    readMouseSGR rd ≠ .ok (.paste p) rd2 := by
  intro h
  unfold readMouseSGR at h
  repeat' split at h
  all_goals try exact ROut.noConfusion h
  all_goals try exact Msg.noConfusion (ROut.ok.inj h).1
  all_goals simp only [] at h
  all_goals split_ifs at h <;> exact Msg.noConfusion (ROut.ok.inj h).1

/-- **C8**: `ESC [ 200 ~` + payload + `ESC [ 201 ~` yields exactly one Paste
event whose text equals the payload — concretely for `hello world`, and in
general for every ESC-free payload within the 1 MiB limit — and on every
input, a Paste event produced by the escape decoder carries at most
`maxPaste` (1 MiB) bytes. -/
theorem bracketed_paste_payload_and_bound :
    (∀ e : Bool, readEscape ⟨bytes "[200~hello world" ++ 0x1B :: bytes "[201~", e⟩ =
        .ok (.paste ⟨bytes "hello world"⟩) ⟨[], e⟩)
    ∧ (∀ (payload rest : List UInt8) (e : Bool), (∀ b ∈ payload, b ≠ 0x1B) →
        payload.length ≤ maxPaste →
        readBracketedPaste ⟨payload ++ 0x1B :: (bytes "[201~" ++ rest), e⟩ =
          .ok (.paste ⟨payload⟩) ⟨rest, e⟩)
    ∧ (∀ (rd : RD) (p : PasteMsg) (rd2 : RD),
        readEscape rd = .ok (.paste p) rd2 → p.text.length ≤ maxPaste) := by
  refine ⟨by intro e; cases e <;> decide, ?_, ?_⟩
  · intro payload rest e hesc hfit
    have := readPasteAux_run payload [] rest e hesc (by simpa using hfit)
    simpa [readBracketedPaste] using this
  · intro rd p rd2 h
    obtain ⟨buf, e⟩ := rd
    cases buf with
    | nil => simp [readEscape] at h
    | cons nb rest =>
      simp only [readEscape] at h
      split_ifs at h with h5b hps hpb
      · exact readPasteAux_bound _ [] e p rd2 h (by simp)
      · exact absurd h (readMouseSGR_no_paste _ p rd2)
      · exact absurd h (readCSIAux_no_paste rest [] e p rd2)
      · exact Msg.noConfusion (ROut.ok.inj h).1
      · exact Msg.noConfusion (ROut.ok.inj h).1

/-- Witness for `bracketed_paste_payload_and_bound` (general payload part). -/
theorem bracketed_paste_payload_witness :
    readBracketedPaste ⟨bytes "hi" ++ 0x1B :: (bytes "[201~" ++ []), true⟩ =
      .ok (.paste ⟨bytes "hi"⟩) ⟨[], true⟩ :=
  bracketed_paste_payload_and_bound.2.1 (bytes "hi") [] true (by decide) (by decide)

/-! ## C10 — `StripANSI` inverts `Style.Render`'s wrapper -/

theorem digitChar_param (k : Nat) (hk : k < 10) : isParamC (Char.ofNat (48 + k)) = true := by
  interval_cases k <;> decide

theorem decDigits_params (n : Nat) : ∀ c ∈ decDigits n, isParamC c = true := by
  induction n using Nat.strong_induction_on with
  | _ n ih =>
    intro c hc
    unfold decDigits at hc
    split at hc
    · next h =>
      simp only [List.mem_singleton] at hc
      subst hc
      exact digitChar_param n h
    · next h =>
      rw [List.mem_append] at hc
      rcases hc with hc | hc
      · exact ih (n / 10) (Nat.div_lt_self (by omega) (by omega)) c hc
      · simp only [List.mem_singleton] at hc
        subst hc
        exact digitChar_param (n % 10) (Nat.mod_lt _ (by omega))

theorem mem_ite_singleton {P : Prop} [Decidable P] {x cs : List Char}
    (h : cs ∈ (if P then [x] else [])) : cs = x := by
  split at h
  · simpa using h
  · simp at h

theorem fgSGR_params (c : Color) : ∀ cs ∈ fgSGR c, ∀ ch ∈ cs, isParamC ch = true := by
  intro cs hcs ch hch
  unfold fgSGR at hcs
  split at hcs
  · simp only [List.mem_singleton] at hcs; subst hcs
    exact decDigits_params _ ch hch
  · simp only [List.mem_cons, List.mem_singleton] at hcs
    rcases hcs with rfl | rfl | hcs
    · fin_cases hch <;> decide
    · fin_cases hch <;> decide
    · simp only [List.mem_singleton, List.not_mem_nil, or_false] at hcs; subst hcs
      exact decDigits_params _ ch hch
  · simp only [List.mem_cons, List.mem_singleton] at hcs
    rcases hcs with rfl | rfl | rfl | rfl | hcs
    · fin_cases hch <;> decide
    · fin_cases hch <;> decide
    · exact decDigits_params _ ch hch
    · exact decDigits_params _ ch hch
    · simp only [List.mem_singleton, List.not_mem_nil, or_false] at hcs; subst hcs
      exact decDigits_params _ ch hch
  · simp at hcs

theorem bgSGR_params (c : Color) : ∀ cs ∈ bgSGR c, ∀ ch ∈ cs, isParamC ch = true := by
  intro cs hcs ch hch
  unfold bgSGR at hcs
  split at hcs
  · simp only [List.mem_singleton] at hcs; subst hcs
    exact decDigits_params _ ch hch
  · simp only [List.mem_cons, List.mem_singleton] at hcs
    rcases hcs with rfl | rfl | hcs
    · fin_cases hch <;> decide
    · fin_cases hch <;> decide
    · simp only [List.mem_singleton, List.not_mem_nil, or_false] at hcs; subst hcs
      exact decDigits_params _ ch hch
  · simp only [List.mem_cons, List.mem_singleton] at hcs
    rcases hcs with rfl | rfl | rfl | rfl | hcs
    · fin_cases hch <;> decide
    · fin_cases hch <;> decide
    · exact decDigits_params _ ch hch
    · exact decDigits_params _ ch hch
    · simp only [List.mem_singleton, List.not_mem_nil, or_false] at hcs; subst hcs
      exact decDigits_params _ ch hch
  · simp at hcs

theorem styleCodes_params (s : Style) :
    ∀ cs ∈ styleCodes s, ∀ ch ∈ cs, isParamC ch = true := by
  intro cs hcs ch hch
  unfold styleCodes at hcs
  simp only [List.mem_append] at hcs
  rcases hcs with ((((((((hcs | hcs) | hcs) | hcs) | hcs) | hcs) | hcs) | hcs) | hcs)
  · rw [mem_ite_singleton hcs] at hch; fin_cases hch <;> decide
  · rw [mem_ite_singleton hcs] at hch; fin_cases hch <;> decide
  · rw [mem_ite_singleton hcs] at hch; fin_cases hch <;> decide
  · rw [mem_ite_singleton hcs] at hch; fin_cases hch <;> decide
  · rw [mem_ite_singleton hcs] at hch; fin_cases hch <;> decide
  · rw [mem_ite_singleton hcs] at hch; fin_cases hch <;> decide
  · rw [mem_ite_singleton hcs] at hch; fin_cases hch <;> decide
  · match hfg : s.fg with
    | none => rw [hfg] at hcs; simp at hcs
    | some c => rw [hfg] at hcs; exact fgSGR_params c cs hcs ch hch
  · match hbg : s.bg with
    | none => rw [hbg] at hcs; simp at hcs
    | some c => rw [hbg] at hcs; exact bgSGR_params c cs hcs ch hch

theorem joinSemi_params :
    ∀ (codes : List (List Char)), (∀ cs ∈ codes, ∀ ch ∈ cs, isParamC ch = true) →
      ∀ ch ∈ joinSemi codes, isParamC ch = true := by
  intro codes
  induction codes with
  | nil => intro _ ch hch; simp [joinSemi] at hch
  | cons hd tl ih =>
    intro hall ch hch
    cases tl with
    | nil =>
      simp only [joinSemi] at hch
      exact hall hd (List.mem_singleton_self hd) ch hch
    | cons t1 trest =>
      simp only [joinSemi, List.mem_append, List.mem_cons] at hch
      rcases hch with hch | rfl | hch
      · exact hall hd (List.mem_cons_self _ _) ch hch
      · decide
      · exact ih (fun cs hcs => hall cs (List.mem_cons_of_mem _ hcs)) ch
          (by simpa [joinSemi] using hch)

theorem sgrMatch_params (ps tail : List Char) (hps : ∀ c ∈ ps, isParamC c = true) :
    sgrMatch ('[' :: (ps ++ 'm' :: tail)) = some tail := by
  have h1 : List.dropWhile isParamC (ps ++ 'm' :: tail) = 'm' :: tail := by
    rw [dropWhile_append_all _ _ _ hps]
    simp [List.dropWhile_cons, show isParamC 'm' = false from by decide]
  simp only [sgrMatch, h1]

theorem stripANSIChars_cons_no_esc (c : Char) (l : List Char) (hc : c ≠ '\x1b') :
    stripANSIChars (c :: l) = c :: stripANSIChars l := by
  conv_lhs => rw [stripANSIChars]
  rw [if_neg hc]

theorem stripANSIChars_esc (rest r2 : List Char) (hm : sgrMatch rest = some r2) :
    stripANSIChars ('\x1b' :: rest) = stripANSIChars r2 := by
  conv_lhs => rw [stripANSIChars]
  rw [if_pos rfl]
  split
  · next r3 hm2 => rw [hm] at hm2; cases hm2; rfl
  · next hm2 => rw [hm] at hm2; cases hm2

theorem stripANSIChars_nil : stripANSIChars [] = [] := by
  rw [stripANSIChars]

theorem stripANSIChars_append_no_esc (t : List Char) (tail : List Char)
    (h : ∀ c ∈ t, c ≠ '\x1b') :
    stripANSIChars (t ++ tail) = t ++ stripANSIChars tail := by
  induction t with
  | nil => simp
  | cons c t2 ih =>
    have hc : c ≠ '\x1b' := h c (List.mem_cons_self c t2)
    have ht2 : ∀ x ∈ t2, x ≠ '\x1b' := fun x hx => h x (List.mem_cons_of_mem c hx)
    show stripANSIChars (c :: (t2 ++ tail)) = _
    rw [stripANSIChars_cons_no_esc c _ hc, ih ht2]
    simp

theorem stripANSIChars_reset : stripANSIChars ['\x1b', '[', '0', 'm'] = [] := by
  have hm : sgrMatch ['[', '0', 'm'] = some [] := by
    have := sgrMatch_params ['0'] [] (by decide)
    simpa using this
  rw [show (['\x1b', '[', '0', 'm'] : List Char) = '\x1b' :: ['[', '0', 'm'] from rfl]
  rw [stripANSIChars_esc _ _ hm, stripANSIChars_nil]

/-- **C10**: for every style and every text with no ESC character,
`StripANSI (Style.Render text) = text`: the SGR wrapper `Style.Render` emits
(nothing when no attributes or colors are set, else `\x1b[…m` + text +
`\x1b[0m`, where the joined codes are all digits and `;`) is exactly what the
`StripANSI` pattern `\x1b\[[0-9;]*m` removes. -/
theorem strip_ansi_inverts_style_render (s : Style) (text : String)
    (h : ∀ c ∈ text.toList, c ≠ '\x1b') :
    StripANSI (StyleRender s text) = text := by
  obtain ⟨data⟩ := text
  have hdata : ∀ c ∈ data, c ≠ '\x1b' := by simpa using h
  unfold StyleRender
  by_cases hc : (styleCodes s).isEmpty
  · simp only [hc, if_true]
    show StripANSI ⟨data⟩ = ⟨data⟩
    unfold StripANSI
    show (⟨stripANSIChars data⟩ : String) = ⟨data⟩
    rw [show stripANSIChars data = data from by
      have := stripANSIChars_append_no_esc data [] hdata
      simpa [stripANSIChars_nil] using this]
  · simp only [hc, if_false, Bool.false_eq_true]
    unfold StripANSI
    refine congrArg String.mk ?_
    show stripANSIChars ('\x1b' :: '[' :: (joinSemi (styleCodes s) ++ 'm' ::
      (String.toList ⟨data⟩ ++ ['\x1b', '[', '0', 'm']))) = data
    have hj : ∀ ch ∈ joinSemi (styleCodes s), isParamC ch = true :=
      joinSemi_params _ (styleCodes_params s)
    rw [stripANSIChars_esc _ _ (sgrMatch_params _ _ hj)]
    rw [show String.toList ⟨data⟩ = data from rfl]
    rw [stripANSIChars_append_no_esc data _ hdata]
    rw [stripANSIChars_reset]
    simp

/-- Witness for `strip_ansi_inverts_style_render`: a bold red style around
`"hi"`. -/
theorem strip_ansi_inverts_style_render_witness :
    StripANSI (StyleRender
      { bold := true, fg := some { kind := .colorNamed16, named := 1 } } "hi") = "hi" :=
  strip_ansi_inverts_style_render
    { bold := true, fg := some { kind := .colorNamed16, named := 1 } } "hi" (by decide)

end Frog
